import Mathlib

/-!
Verification development for the Wristband JWT validation library.

The definitions below are shallow embeddings of the TypeScript sources:

* `validateAlgorithm` embeds `validateAlgorithm` from `src/utils/crypto.ts`;
* `Cache1` embeds the first `LRUCache` class of `src/utils/cache.ts`
  (the doubly-linked-list implementation, modelled as a recency-ordered
  association list with the most recently used entry at the head) and
  `Cache2` embeds the second `LRUCache` class of the same file (the
  plain-`Map` implementation, modelled as an insertion-ordered
  association list — JavaScript `Map` iteration follows insertion order);
* `getSigningKey`, `jwkToPem`, `encodeInteger`, `encodeLength` and
  `createRSAPublicKeyDER` embed the JWKS client (`src/jwks-client.ts`);
* `validate` and `extractBearerToken` embed the validator
  (`src/validator.ts`), with the external collaborators (base64url
  decoding + JSON parsing of the two token segments, the JWKS key lookup,
  and the signature primitive) supplied as explicit fallible functions.

JavaScript numbers appearing in constructor validation are modelled as
rationals (so that `Number.isInteger` is expressible); timestamps are
integers; JS falsiness of strings/numbers/`undefined` is translated
explicitly at each use site.  The JS string builtins `toLowerCase`,
`trim`, `startsWith`, `substring`, `atob` and `btoa` are modelled by the
list-based helpers below with their standard (ASCII) semantics.
-/

/-- Model of the whitespace class trimmed by JavaScript `String.prototype.trim`
(ASCII fragment). -/
def jsIsWhite (c : Char) : Bool :=
  c = ' ' ∨ c = '\t' ∨ c = '\n' ∨ c = '\r'

/-- Model of JavaScript `String.prototype.toLowerCase` (ASCII semantics). -/
def jsToLowerCase (s : String) : String :=
  String.mk (s.data.map Char.toLower)

/-- Model of JavaScript `String.prototype.trim` (ASCII semantics). -/
def jsTrim (s : String) : String :=
  String.mk (((s.data.dropWhile jsIsWhite).reverse.dropWhile jsIsWhite).reverse)

/-- Embedding of `validateAlgorithm` (src/utils/crypto.ts).  The
`typeof`/`Array.isArray` guards disappear in the typed model; the
`!algorithm?.trim()` falsiness guard becomes an emptiness test of the
trimmed string. -/
def validateAlgorithm (algorithm : String) (allowedAlgorithms : List String) : Bool :=
  if jsTrim algorithm = "" then
    false
  else
    let normalizedAlg := jsToLowerCase algorithm
    let normalizedAllowed :=
      (allowedAlgorithms.filter (fun a => jsTrim a != "")).map (fun a => jsToLowerCase a)
    if normalizedAlg = "none" then false
    else normalizedAllowed.contains normalizedAlg

/-- C1: the algorithm check compares case-insensitively, rejects any
algorithm whose lowercasing is `"none"` even when the allowlist contains
`"none"`, accepts `"RS256"` against `["RS256"]` and rejects `"HS256"`
against `["RS256"]`. -/
theorem validateAlgorithm_none_always_rejected :
    (∀ (alg : String) (allowed : List String),
        jsToLowerCase alg = "none" → validateAlgorithm alg allowed = false)
    ∧ validateAlgorithm "RS256" ["RS256"] = true
    ∧ validateAlgorithm "HS256" ["RS256"] = false
    ∧ validateAlgorithm "rs256" ["RS256"] = true
    ∧ validateAlgorithm "RS256" ["rs256"] = true
    ∧ validateAlgorithm "none" ["none"] = false
    ∧ validateAlgorithm "NONE" ["RS256", "none"] = false := by
  refine ⟨?_, by decide, by decide, by decide, by decide, by decide, by decide⟩
  intro alg allowed h
  by_cases h1 : jsTrim alg = "" <;> simp [validateAlgorithm, h1, h]

/-- Witness for C1: the general `"none"`-rejection clause applied to the
mixed-case algorithm `"NoNe"` and an allowlist that explicitly contains
`"none"`. -/
theorem validateAlgorithm_none_always_rejected_witness :
    jsToLowerCase "NoNe" = "none" ∧ validateAlgorithm "NoNe" ["none"] = false :=
  ⟨by decide, validateAlgorithm_none_always_rejected.1 "NoNe" ["none"] (by decide)⟩

/-- Node of the first `LRUCache` implementation (`LRUNode` minus the
`prev`/`next` intrusive links, which are represented by the position of
the node in the recency list). -/
structure CacheNode where
  key : String
  value : String
  lastAccessed : Int
deriving DecidableEq, Repr

/-- State of the first `LRUCache` class of src/utils/cache.ts: the hash
map plus intrusive doubly-linked list is modelled as a single association
list ordered by recency, most recently used first (`head.next` is the
head of `entries`, `tail.prev` its last element). -/
structure Cache1 where
  entries : List CacheNode
  maxSize : Nat
  ttl : Option ℚ
deriving DecidableEq, Repr

/-- Embedding of the expiry test `this.ttl && Date.now() - ts > this.ttl`
shared by `get`/`has` of both cache classes (`ts` is `node.lastAccessed`
in the first class and `entry.created` in the second).  A `ttl` of `0` is
falsy in JavaScript, hence the `t != 0` conjunct. -/
def jsTtlExpired (ttl : Option ℚ) (now ts : Int) : Bool :=
  match ttl with
  | none => false
  | some t => t != 0 && ((((now - ts : Int) : ℚ)) > t)

/-- Embedding of the `Map.get` lookup of the first `LRUCache`. -/
def Cache1.lookup (st : Cache1) (key : String) : Option CacheNode :=
  st.entries.find? (fun e => e.key == key)

/-- Embedding of `LRUCache.get` (first implementation): a hit refreshes
`lastAccessed` and moves the node to the front; an entry whose age since
last access exceeds `ttl` is removed and reported absent. -/
def Cache1.get (st : Cache1) (now : Int) (key : String) : Option String × Cache1 :=
  match st.entries.find? (fun e => e.key == key) with
  | none => (none, st)
  | some node =>
    if jsTtlExpired st.ttl now node.lastAccessed then
      (none, { st with entries := st.entries.eraseP (fun e => e.key == key) })
    else
      (some node.value,
        { st with entries :=
            { node with lastAccessed := now } :: st.entries.eraseP (fun e => e.key == key) })

/-- Embedding of `LRUCache.set` (first implementation): an existing node
is made most recently used (its value is left untouched); a new node is
added to the front and, if the size limit is now exceeded, the tail node
(least recently used) is evicted. -/
def Cache1.set (st : Cache1) (now : Int) (key value : String) : Cache1 :=
  match st.entries.find? (fun e => e.key == key) with
  | some node =>
      { st with entries :=
          { node with lastAccessed := now } :: st.entries.eraseP (fun e => e.key == key) }
  | none =>
      let entries1 : List CacheNode := ⟨key, value, now⟩ :: st.entries
      if entries1.length > st.maxSize then
        { st with entries := entries1.dropLast }
      else
        { st with entries := entries1 }

/-- Embedding of `LRUCache.has` (first implementation): expiry is honoured
(the stale node is removed) but a live hit changes nothing. -/
def Cache1.has (st : Cache1) (now : Int) (key : String) : Bool × Cache1 :=
  match st.entries.find? (fun e => e.key == key) with
  | none => (false, st)
  | some node =>
    if jsTtlExpired st.ttl now node.lastAccessed then
      (false, { st with entries := st.entries.eraseP (fun e => e.key == key) })
    else
      (true, st)

/-- Embedding of `LRUCache.delete` (first implementation). -/
def Cache1.delete (st : Cache1) (key : String) : Bool × Cache1 :=
  match st.entries.find? (fun e => e.key == key) with
  | none => (false, st)
  | some _ => (true, { st with entries := st.entries.eraseP (fun e => e.key == key) })

/-- Entry of the second `LRUCache` implementation (`CacheEntry` of
src/types/index.ts). -/
structure Entry2 where
  value : String
  lastAccessed : Int
  created : Int
deriving DecidableEq, Repr

/-- State of the second `LRUCache` class of src/utils/cache.ts: a plain
`Map` modelled as an association list in insertion order. -/
structure Cache2 where
  entries : List (String × Entry2)
  maxSize : Nat
  ttl : Option ℚ
deriving DecidableEq, Repr

/-- Embedding of `evictLeastRecentlyUsed` of the second `LRUCache` class:
scan all entries for the strictly smallest `lastAccessed` (first
occurrence wins, starting from `oldestTime = Infinity`), then delete that
key if it is truthy. -/
def Cache2.evictLRU (entries : List (String × Entry2)) : List (String × Entry2) :=
  let oldest := entries.foldl
    (fun acc p =>
      match acc.2 with
      | none => (p.1, some p.2.lastAccessed)
      | some t => if p.2.lastAccessed < t then (p.1, some p.2.lastAccessed) else acc)
    (("", (none : Option Int)))
  if oldest.1 = "" then entries else entries.eraseP (fun p => p.1 == oldest.1)

/-- Embedding of `LRUCache.set` (second implementation): an existing entry
is overwritten in place (value, `lastAccessed` and `created` all reset); a
new entry is appended, evicting the least recently accessed entry when the
size limit is exceeded. -/
def Cache2.set (st : Cache2) (now : Int) (key value : String) : Cache2 :=
  if (st.entries.find? (fun p => p.1 == key)).isSome then
    { st with entries :=
        st.entries.map (fun q => if q.1 == key then (q.1, ⟨value, now, now⟩) else q) }
  else
    let entries1 := st.entries ++ [(key, (⟨value, now, now⟩ : Entry2))]
    if entries1.length > st.maxSize then
      { st with entries := Cache2.evictLRU entries1 }
    else
      { st with entries := entries1 }

/-- Embedding of `LRUCache.get` (second implementation): expiry is
measured against `entry.created`; a live hit refreshes `lastAccessed`
only (the map order and `created` are untouched). -/
def Cache2.get (st : Cache2) (now : Int) (key : String) : Option String × Cache2 :=
  match st.entries.find? (fun p => p.1 == key) with
  | none => (none, st)
  | some p =>
    if jsTtlExpired st.ttl now p.2.created then
      (none, { st with entries := st.entries.eraseP (fun q => q.1 == key) })
    else
      (some p.2.value,
        { st with entries :=
            st.entries.map (fun q =>
              if q.1 == key then (q.1, { q.2 with lastAccessed := now }) else q) })

/-- Embedding of `LRUCache.has` (second implementation). -/
def Cache2.has (st : Cache2) (now : Int) (key : String) : Bool × Cache2 :=
  match st.entries.find? (fun p => p.1 == key) with
  | none => (false, st)
  | some p =>
    if jsTtlExpired st.ttl now p.2.created then
      (false, { st with entries := st.entries.eraseP (fun q => q.1 == key) })
    else
      (true, st)


/-- Shape of `Cache1.set` on a key that is not yet cached: the new node is
placed at the front and, when over capacity, the tail is dropped; with at
least one slot the new node always survives. -/
theorem cache1_set_fresh_shape (st : Cache1) (now : Int) (k v : String)
    (hmax : 0 < st.maxSize)
    (hfind : st.entries.find? (fun e => e.key == k) = none) :
    ∃ rest, st.set now k v = { st with entries := ⟨k, v, now⟩ :: rest } := by
  simp only [Cache1.set, hfind]
  by_cases hlen : ((⟨k, v, now⟩ :: st.entries : List CacheNode)).length > st.maxSize
  · refine ⟨st.entries.dropLast, ?_⟩
    rw [if_pos hlen]
    have hne : st.entries ≠ [] := by
      intro hnil
      rw [hnil] at hlen
      simp at hlen
      omega
    cases hse : st.entries with
    | nil => exact absurd hse hne
    | cons a l => simp [List.dropLast_cons₂]
  · exact ⟨st.entries, by rw [if_neg hlen]⟩

/-- Shape of `Cache1.set` on a key that is already cached: only the
timestamp and the recency position of its node change. -/
theorem cache1_set_existing_shape (st : Cache1) (now : Int) (k v : String) (n : CacheNode)
    (hfind : st.entries.find? (fun e => e.key == k) = some n) :
    st.set now k v = { st with entries :=
      { n with lastAccessed := now } :: st.entries.eraseP (fun e => e.key == k) } := by
  simp only [Cache1.set, hfind]

/-- Shape of `Cache1.get` on a live (non-expired) hit: the value is
returned and the node moves to the front with a fresh timestamp. -/
theorem cache1_get_live (st : Cache1) (now : Int) (k : String) (n : CacheNode)
    (hfind : st.entries.find? (fun e => e.key == k) = some n)
    (hlive : jsTtlExpired st.ttl now n.lastAccessed = false) :
    st.get now k = (some n.value, { st with entries :=
      { n with lastAccessed := now } :: st.entries.eraseP (fun e => e.key == k) }) := by
  simp only [Cache1.get, hfind, hlive, Bool.false_eq_true, if_false]

/-- Counterexample for C3: in the second `LRUCache` implementation a
repeat `set` on an existing key does overwrite the stored value, so
`set(k, v1); set(k, v2); get(k)` returns `v2`, not `v1`. -/
theorem cache2_repeat_set_overwrites :
    ¬ ((((Cache2.set ⟨[], 5, none⟩ 0 "k" "v1").set 0 "k" "v2").get 0 "k").1 = some "v1")
    ∧ (((Cache2.set ⟨[], 5, none⟩ 0 "k" "v1").set 0 "k" "v2").get 0 "k").1 = some "v2" := by
  refine ⟨?_, by decide⟩
  decide

/-- C3 (amended): in the first (doubly-linked-list) `LRUCache`
implementation, starting from a cache with at least one slot that does
not yet hold `k`, `set(k, v1)` then `set(k, v2)` then a non-expired
`get(k)` returns `v1`: the repeat `set` refreshes recency and
`lastAccessed` but never overwrites the stored value.  (The second,
`Map`-based implementation overwrites on repeat `set`.) -/
theorem cache1_repeat_set_preserves_value (st : Cache1) (k v1 v2 : String) (t1 t2 t3 : Int)
    (hmax : 0 < st.maxSize)
    (hfresh : st.lookup k = none)
    (hlive : jsTtlExpired st.ttl t3 t2 = false) :
    (((st.set t1 k v1).set t2 k v2).get t3 k).1 = some v1 := by
  obtain ⟨rest, h1⟩ := cache1_set_fresh_shape st t1 k v1 hmax hfresh
  rw [h1]
  rw [cache1_set_existing_shape _ t2 k v2 ⟨k, v1, t1⟩ (List.find?_cons_of_pos _ (by simp))]
  dsimp only
  simp only [Cache1.get]
  rw [List.find?_cons_of_pos _ (by simp)]
  simp [hlive]

/-- Witness for C3's amended theorem: a fresh key in an empty one-slot
cache with no TTL. -/
theorem cache1_repeat_set_preserves_value_witness :
    0 < (⟨[], 1, none⟩ : Cache1).maxSize
    ∧ (⟨[], 1, none⟩ : Cache1).lookup "k" = none
    ∧ jsTtlExpired (⟨[], 1, none⟩ : Cache1).ttl 2 1 = false
    ∧ ((((⟨[], 1, none⟩ : Cache1).set 0 "k" "v1").set 1 "k" "v2").get 2 "k").1 = some "v1" :=
  ⟨by decide, by decide, by decide,
    cache1_repeat_set_preserves_value ⟨[], 1, none⟩ "k" "v1" "v2" 0 1 2
      (by decide) (by decide) (by decide)⟩

/-- Shape of `Cache1.get` on a miss: nothing changes. -/
theorem cache1_get_miss (st : Cache1) (now : Int) (k : String)
    (hfind : st.entries.find? (fun e => e.key == k) = none) :
    st.get now k = (none, st) := by
  simp only [Cache1.get, hfind]

/-- Shape of `Cache1.get` on an expired hit: the stale node is removed and
absence is reported. -/
theorem cache1_get_expired (st : Cache1) (now : Int) (k : String) (n : CacheNode)
    (hfind : st.entries.find? (fun e => e.key == k) = some n)
    (hexp : jsTtlExpired st.ttl now n.lastAccessed = true) :
    st.get now k = (none, { st with entries := st.entries.eraseP (fun e => e.key == k) }) := by
  simp only [Cache1.get, hfind, hexp, if_true]

/-- Shape of `Cache1.has` on an expired hit. -/
theorem cache1_has_expired (st : Cache1) (now : Int) (k : String) (n : CacheNode)
    (hfind : st.entries.find? (fun e => e.key == k) = some n)
    (hexp : jsTtlExpired st.ttl now n.lastAccessed = true) :
    st.has now k = (false, { st with entries := st.entries.eraseP (fun e => e.key == k) }) := by
  simp only [Cache1.has, hfind, hexp, if_true]

/-- Shape of `Cache1.has` on a live hit: the state is returned untouched
(no timestamp refresh, no reordering). -/
theorem cache1_has_live (st : Cache1) (now : Int) (k : String) (n : CacheNode)
    (hfind : st.entries.find? (fun e => e.key == k) = some n)
    (hlive : jsTtlExpired st.ttl now n.lastAccessed = false) :
    st.has now k = (true, st) := by
  simp only [Cache1.has, hfind, hlive, Bool.false_eq_true, if_false]

/-- Counterexample for C5: in the second `LRUCache` implementation expiry
is measured from `created`, not from last access, so with `ttl = 100` an
entry set at time 0 and successfully read at time 60 is nevertheless gone
at time 120 — repeated gets within `ttl` of the previous access do not
keep it alive. -/
theorem cache2_ttl_ignores_last_access :
    ((Cache2.set ⟨[], 5, some 100⟩ 0 "k" "v").get 60 "k").1 = some "v"
    ∧ ((((Cache2.set ⟨[], 5, some 100⟩ 0 "k" "v").get 60 "k").2).get 120 "k").1 = none := by
  constructor
  · decide
  · decide

/-- C5 (amended): in the first (doubly-linked-list) `LRUCache`
implementation, expiry is measured from last access: a cached node whose
age since `lastAccessed` exceeds a (nonzero) `ttl` is reported absent and
removed by both `get` and `has`; a live `get` returns the value, stamps
`lastAccessed := now` (so a further `get` within `ttl` of the previous one
still finds the value); a live `has` changes nothing at all.  (In the
second, `Map`-based implementation expiry is measured from creation and
`get` does not extend an entry's life.) -/
theorem cache1_ttl_measured_from_last_access
    (st : Cache1) (now : Int) (k : String) (t : ℚ) (n : CacheNode)
    (httl : st.ttl = some t)
    (ht0 : t ≠ 0)
    (hfind : st.entries.find? (fun e => e.key == k) = some n) :
    (((now - n.lastAccessed : Int) : ℚ) > t →
        (st.get now k).1 = none
        ∧ (st.get now k).2.entries = st.entries.eraseP (fun e => e.key == k)
        ∧ (st.has now k).1 = false
        ∧ (st.has now k).2.entries = st.entries.eraseP (fun e => e.key == k))
    ∧ (¬ (((now - n.lastAccessed : Int) : ℚ) > t) →
        (st.get now k).1 = some n.value
        ∧ (st.get now k).2.lookup k = some { n with lastAccessed := now }
        ∧ (∀ now2 : Int, ¬ (((now2 - now : Int) : ℚ) > t) →
            ((st.get now k).2.get now2 k).1 = some n.value)
        ∧ st.has now k = (true, st)) := by
  have hk : n.key = k := by
    have h := List.find?_some hfind
    simpa using h
  constructor
  · intro hgt
    have hexp : jsTtlExpired st.ttl now n.lastAccessed = true := by
      rw [httl]
      simp only [jsTtlExpired, Bool.and_eq_true, bne_iff_ne, ne_eq, decide_eq_true_eq]
      push_cast at hgt
      exact ⟨ht0, by push_cast; linarith⟩
    rw [cache1_get_expired st now k n hfind hexp, cache1_has_expired st now k n hfind hexp]
    exact ⟨rfl, rfl, rfl, rfl⟩
  · intro hle
    have hlive : jsTtlExpired st.ttl now n.lastAccessed = false := by
      rw [httl]
      simp only [jsTtlExpired, Bool.and_eq_false_iff, bne_eq_false_iff_eq, decide_eq_false_iff_not]
      right
      push_cast at hle ⊢
      linarith
    rw [cache1_get_live st now k n hfind hlive, cache1_has_live st now k n hfind hlive]
    refine ⟨rfl, ?_, ?_, rfl⟩
    · exact List.find?_cons_of_pos _ (by simp [hk])
    · intro now2 hle2
      have hlive2 : jsTtlExpired
          ({ st with entries :=
              { n with lastAccessed := now } :: st.entries.eraseP (fun e => e.key == k) } :
            Cache1).ttl now2 now = false := by
        rw [show ({ st with entries :=
              { n with lastAccessed := now } :: st.entries.eraseP (fun e => e.key == k) } :
            Cache1).ttl = st.ttl from rfl, httl]
        simp only [jsTtlExpired, Bool.and_eq_false_iff, bne_eq_false_iff_eq,
          decide_eq_false_iff_not]
        right
        push_cast at hle2 ⊢
        linarith
      rw [cache1_get_live _ now2 k { n with lastAccessed := now }
        (List.find?_cons_of_pos _ (by simp [hk])) hlive2]

/-- Witness for C5's amended theorem: a one-entry cache with `ttl = 100`,
entry last accessed at time 0; expired at time 150, live and untouched by
`has` at time 50. -/
theorem cache1_ttl_measured_from_last_access_witness :
    ((⟨[⟨"k", "v", 0⟩], 5, some 100⟩ : Cache1).get 150 "k").1 = none
    ∧ ((⟨[⟨"k", "v", 0⟩], 5, some 100⟩ : Cache1).has 50 "k")
        = (true, (⟨[⟨"k", "v", 0⟩], 5, some 100⟩ : Cache1)) :=
  ⟨((cache1_ttl_measured_from_last_access ⟨[⟨"k", "v", 0⟩], 5, some 100⟩ 150 "k" 100
      ⟨"k", "v", 0⟩ rfl (by decide) (by decide)).1 (by decide)).1,
    ((cache1_ttl_measured_from_last_access ⟨[⟨"k", "v", 0⟩], 5, some 100⟩ 50 "k" 100
      ⟨"k", "v", 0⟩ rfl (by decide) (by decide)).2 (by decide)).2.2.2⟩

/-- An abstract call against the first `LRUCache` implementation, used to
quantify over arbitrary sequences of cache operations. -/
inductive CacheOp where
  | set (now : Int) (key value : String)
  | get (now : Int) (key : String)
  | has (now : Int) (key : String)
  | del (key : String)

/-- State reached after one cache call (outputs discarded). -/
def Cache1.applyOp (st : Cache1) : CacheOp → Cache1
  | .set now k v => st.set now k v
  | .get now k => (st.get now k).2
  | .has now k => (st.has now k).2
  | .del k => (st.delete k).2

/-- State reached after a sequence of cache calls. -/
def Cache1.runOps (st : Cache1) : List CacheOp → Cache1
  | [] => st
  | op :: ops => (st.applyOp op).runOps ops

/-- One cache call preserves the size bound and the configuration. -/
theorem cache1_applyOp_spec (st : Cache1) (op : CacheOp)
    (h : st.entries.length ≤ st.maxSize) :
    (st.applyOp op).entries.length ≤ st.maxSize
    ∧ (st.applyOp op).maxSize = st.maxSize := by
  cases op with
  | set now k v =>
    simp only [Cache1.applyOp]
    cases hf : st.entries.find? (fun e => e.key == k) with
    | some n =>
      rw [cache1_set_existing_shape st now k v n hf]
      refine ⟨?_, rfl⟩
      have hmem : n ∈ st.entries := List.mem_of_find?_eq_some hf
      have hpos : 0 < st.entries.length := List.length_pos_of_mem hmem
      have := List.length_eraseP_of_mem hmem (List.find?_some hf)
      simp only [List.length_cons]
      omega
    | none =>
      simp only [Cache1.set, hf]
      by_cases hlen : ((⟨k, v, now⟩ :: st.entries : List CacheNode)).length > st.maxSize
      · rw [if_pos hlen]
        refine ⟨?_, rfl⟩
        simp only [List.length_dropLast, List.length_cons]
        omega
      · rw [if_neg hlen]
        refine ⟨?_, rfl⟩
        simp only [List.length_cons] at hlen ⊢
        omega
  | get now k =>
    simp only [Cache1.applyOp]
    cases hf : st.entries.find? (fun e => e.key == k) with
    | none => rw [cache1_get_miss st now k hf]; exact ⟨h, rfl⟩
    | some n =>
      by_cases hexp : jsTtlExpired st.ttl now n.lastAccessed = true
      · rw [cache1_get_expired st now k n hf hexp]
        exact ⟨le_trans (List.length_eraseP_le _) h, rfl⟩
      · rw [cache1_get_live st now k n hf (by simpa using hexp)]
        refine ⟨?_, rfl⟩
        have hmem : n ∈ st.entries := List.mem_of_find?_eq_some hf
        have := List.length_eraseP_of_mem hmem (List.find?_some hf)
        have hpos : 0 < st.entries.length := List.length_pos_of_mem hmem
        simp only [List.length_cons]
        omega
  | has now k =>
    simp only [Cache1.applyOp]
    cases hf : st.entries.find? (fun e => e.key == k) with
    | none => simp only [Cache1.has, hf]; exact ⟨h, trivial⟩
    | some n =>
      by_cases hexp : jsTtlExpired st.ttl now n.lastAccessed = true
      · rw [cache1_has_expired st now k n hf hexp]
        exact ⟨le_trans (List.length_eraseP_le _) h, rfl⟩
      · rw [cache1_has_live st now k n hf (by simpa using hexp)]
        exact ⟨h, rfl⟩

  | del k =>
    simp only [Cache1.applyOp]
    cases hf : st.entries.find? (fun e => e.key == k) with
    | none => simp only [Cache1.delete, hf]; exact ⟨h, trivial⟩
    | some n =>
      simp only [Cache1.delete, hf]
      exact ⟨le_trans (List.length_eraseP_le _) h, trivial⟩

/-- A whole sequence of cache calls preserves the size bound. -/
theorem cache1_runOps_le (ops : List CacheOp) (st : Cache1)
    (h : st.entries.length ≤ st.maxSize) :
    (st.runOps ops).entries.length ≤ st.maxSize
    ∧ (st.runOps ops).maxSize = st.maxSize := by
  induction ops generalizing st with
  | nil => exact ⟨h, rfl⟩
  | cons op ops ih =>
    obtain ⟨h1, h2⟩ := cache1_applyOp_spec st op h
    obtain ⟨h3, h4⟩ := ih (st.applyOp op) (h2 ▸ h1)
    exact ⟨by rw [Cache1.runOps]; omega, by rw [Cache1.runOps]; omega⟩

/-- Truncation before appending more on the left is absorbed by the outer
truncation. -/
theorem take_append_take_absorb {α : Type} (x y : List α) (m : Nat) :
    (x ++ y.take m).take m = (x ++ y).take m := by
  rw [List.take_append_eq_append_take, List.take_append_eq_append_take, List.take_take,
    Nat.min_eq_left (Nat.sub_le m x.length)]

/-- Key trace of `Cache1.set` on a fresh key: the new key goes to the
front and the whole list is truncated to capacity. -/
theorem cache1_set_fresh_keys (st : Cache1) (now : Int) (k v : String)
    (hf : st.entries.find? (fun e => e.key == k) = none)
    (hlen : st.entries.length ≤ st.maxSize) :
    (st.set now k v).entries.map (fun e => e.key)
        = (k :: st.entries.map (fun e => e.key)).take st.maxSize := by
  simp only [Cache1.set, hf]
  by_cases hcap : ((⟨k, v, now⟩ :: st.entries : List CacheNode)).length > st.maxSize
  · rw [if_pos hcap]
    simp only [List.length_cons] at hcap
    have hm : st.entries.length = st.maxSize := by omega
    dsimp only
    rw [List.map_dropLast, List.dropLast_eq_take]
    simp [hm]
  · rw [if_neg hcap]
    simp only [List.length_cons] at hcap
    dsimp only
    rw [List.take_of_length_le (by simp only [List.length_cons, List.length_map]; omega)]
    simp

/-- Insertion of a list of keys, left to right, via `Cache1.set`. -/
def Cache1.setAll (st : Cache1) (now : Int) (vals : String → String) : List String → Cache1
  | [] => st
  | k :: ks => ((st.set now k (vals k)).setAll now vals ks)

/-- After inserting fresh, pairwise-distinct keys, the cache holds exactly
the most recently inserted keys, most recent first, truncated to
capacity. -/
theorem cache1_setAll_keys (keys : List String) (st : Cache1) (now : Int)
    (vals : String → String)
    (hnd : keys.Nodup)
    (hlen : st.entries.length ≤ st.maxSize)
    (hfresh : ∀ k ∈ keys, st.entries.find? (fun e => e.key == k) = none) :
    (st.setAll now vals keys).entries.map (fun e => e.key)
        = (keys.reverse ++ st.entries.map (fun e => e.key)).take st.maxSize := by
  induction keys generalizing st with
  | nil =>
    simp only [Cache1.setAll, List.reverse_nil, List.nil_append]
    rw [List.take_of_length_le (by simpa using hlen)]
  | cons k ks ih =>
    simp only [Cache1.setAll]
    have hfk : st.entries.find? (fun e => e.key == k) = none :=
      hfresh k (List.mem_cons_self k ks)
    have hkeys1 := cache1_set_fresh_keys st now k (vals k) hfk hlen
    have hmax1 : (st.set now k (vals k)).maxSize = st.maxSize :=
      (cache1_applyOp_spec st (.set now k (vals k)) hlen).2
    have hlen1 : (st.set now k (vals k)).entries.length ≤ (st.set now k (vals k)).maxSize := by
      rw [hmax1]
      exact (cache1_applyOp_spec st (.set now k (vals k)) hlen).1
    have hfresh1 : ∀ k' ∈ ks,
        (st.set now k (vals k)).entries.find? (fun e => e.key == k') = none := by
      intro k' hk'
      rw [List.find?_eq_none]
      intro e he
      have hkey : e.key ∈ (st.set now k (vals k)).entries.map (fun e => e.key) :=
        List.mem_map_of_mem _ he
      rw [hkeys1] at hkey
      have hkey2 := List.mem_of_mem_take hkey
      simp only [List.mem_cons, List.mem_map] at hkey2
      rcases hkey2 with hkey2 | ⟨e', he', hkey2⟩
      · have : k' ≠ k := by
          intro hcon
          rw [hcon] at hk'
          exact (List.nodup_cons.mp hnd).1 hk'
        simp only [hkey2, beq_iff_eq]
        exact fun hcon => this hcon.symm
      · have := List.find?_eq_none.mp (hfresh k' (List.mem_cons_of_mem _ hk')) e' he'
        simpa [hkey2] using this
    have hrec := ih (st.set now k (vals k)) (List.nodup_cons.mp hnd).2 hlen1 hfresh1
    rw [hrec, hmax1, hkeys1]
    rw [take_append_take_absorb]
    simp only [List.reverse_cons, List.append_assoc, List.cons_append, List.nil_append]

/-- C4: starting from a freshly constructed cache, (i) no sequence of
`set`/`get`/`has`/`delete` calls ever pushes the entry count above
`maxSize`; (ii) inserting `maxSize + j` pairwise-distinct fresh keys
(`j ≥ 1`) leaves exactly `maxSize` entries, namely the `maxSize` most
recently inserted keys in most-recently-used-first order — each insertion
over capacity evicts exactly the least-recently-used (tail) entry. -/
theorem cache1_capacity_invariant :
    (∀ (m : Nat) (ttl : Option ℚ) (ops : List CacheOp),
        ((⟨[], m, ttl⟩ : Cache1).runOps ops).entries.length ≤ m)
    ∧ (∀ (m : Nat) (ttl : Option ℚ) (now : Int) (vals : String → String) (keys : List String),
        keys.Nodup → m + 1 ≤ keys.length →
          ((⟨[], m, ttl⟩ : Cache1).setAll now vals keys).entries.map (fun e => e.key)
              = keys.reverse.take m
          ∧ ((⟨[], m, ttl⟩ : Cache1).setAll now vals keys).entries.length = m) := by
  constructor
  · intro m ttl ops
    exact (cache1_runOps_le ops ⟨[], m, ttl⟩ (by simp)).1
  · intro m ttl now vals keys hnd hcount
    have h := cache1_setAll_keys keys ⟨[], m, ttl⟩ now vals hnd (by simp)
      (fun k _ => rfl)
    simp only [List.map_nil, List.append_nil] at h
    refine ⟨h, ?_⟩
    have hlenmap : ((⟨[], m, ttl⟩ : Cache1).setAll now vals keys).entries.length
        = (keys.reverse.take m).length := by
      rw [← List.length_map (f := fun (e : CacheNode) => e.key), h]
    rw [hlenmap, List.length_take, List.length_reverse]
    omega

/-- Witness for C4(ii): inserting three distinct keys into a two-slot
cache leaves exactly the two most recently inserted. -/
theorem cache1_capacity_invariant_witness :
    (["a", "b", "c"] : List String).Nodup
    ∧ ((⟨[], 2, none⟩ : Cache1).setAll 0 (fun k => k) ["a", "b", "c"]).entries.map
        (fun e => e.key) = ["c", "b"]
    ∧ ((⟨[], 2, none⟩ : Cache1).setAll 0 (fun k => k) ["a", "b", "c"]).entries.length = 2 :=
  ⟨by decide,
    (cache1_capacity_invariant.2 2 none 0 (fun k => k) ["a", "b", "c"]
      (by decide) (by decide)).1,
    (cache1_capacity_invariant.2 2 none 0 (fun k => k) ["a", "b", "c"]
      (by decide) (by decide)).2⟩


/-- The `options.ttl && (!Number.isInteger(options.ttl) || options.ttl <= 0)`
guard of the first `LRUCache` constructor, as a Boolean on the modelled
`ttl` option. -/
def jsTtlGuardFails (ttl : Option ℚ) : Bool :=
  match ttl with
  | some t => decide (t ≠ 0) && (decide (¬(t.isInt = true)) || decide (t ≤ 0))
  | none => false

/-- Embedding of the first `LRUCache` class constructor
(src/utils/cache.ts, lines 63-79).  JavaScript numbers are modelled as
rationals; `!options.maxSize` and `options.ttl && …` are JS truthiness
tests, i.e. comparisons against `0` (`NaN`/`undefined` excepted). -/
def LRUCache.construct (maxSize : ℚ) (ttl : Option ℚ) : Except String Cache1 :=
  if maxSize = 0 ∨ ¬(maxSize.isInt = true) ∨ maxSize ≤ 0 then
    Except.error "maxSize must be a positive integer"
  else if jsTtlGuardFails ttl then
    Except.error "ttl must be a positive integer (if specified)"
  else
    Except.ok { entries := [], maxSize := maxSize.num.toNat, ttl := ttl }

/-- Unfolding of the `ttl` guard on a supplied value. -/
theorem jsTtlGuardFails_some_iff (t : ℚ) :
    jsTtlGuardFails (some t) = true ↔ (t ≠ 0 ∧ (¬(t.isInt = true) ∨ t ≤ 0)) := by
  simp [jsTtlGuardFails]

/-- Counterexample for C9: `ttl = 0` is supplied and is not a positive
integer, yet construction succeeds, because `0` is falsy and the
`options.ttl && …` guard is skipped. -/
theorem lruCache_construct_ttl_zero_accepted :
    LRUCache.construct 1 (some 0)
        = Except.ok { entries := [], maxSize := 1, ttl := some 0 }
    ∧ ¬((0 : ℚ).isInt = true ∧ 0 < (0 : ℚ)) := by
  constructor
  · rfl
  · rintro ⟨-, h⟩
    exact lt_irrefl 0 h

/-- Every cache call leaves the configured `ttl` unchanged. -/
theorem cache1_applyOp_ttl (st : Cache1) (op : CacheOp) :
    (st.applyOp op).ttl = st.ttl := by
  cases op with
  | set now k v =>
    cases hf : st.entries.find? (fun e => e.key == k) with
    | some n => simp only [Cache1.applyOp, Cache1.set, hf]
    | none =>
      simp only [Cache1.applyOp, Cache1.set, hf]
      split <;> rfl
  | get now k =>
    cases hf : st.entries.find? (fun e => e.key == k) with
    | none => simp only [Cache1.applyOp, Cache1.get, hf]
    | some n =>
      simp only [Cache1.applyOp, Cache1.get, hf]
      split <;> rfl
  | has now k =>
    cases hf : st.entries.find? (fun e => e.key == k) with
    | none => simp only [Cache1.applyOp, Cache1.has, hf]
    | some n =>
      simp only [Cache1.applyOp, Cache1.has, hf]
      split <;> rfl
  | del k =>
    cases hf : st.entries.find? (fun e => e.key == k) with
    | none => simp only [Cache1.applyOp, Cache1.delete, hf]
    | some n => simp only [Cache1.applyOp, Cache1.delete, hf]

/-- C9 (amended): construction fails exactly when `maxSize` is not a
positive integer, or when `ttl` is supplied, nonzero, and not a positive
integer (a supplied `ttl = 0` is falsy in JavaScript, so the guard is
skipped and the cache behaves as if `ttl` were unset); with `ttl` unset
construction succeeds and entries never expire by time. -/
theorem lruCache_construct_validation :
    (∀ (maxSize : ℚ) (ttl : Option ℚ),
        (∃ e, LRUCache.construct maxSize ttl = Except.error e)
          ↔ (¬(maxSize.isInt = true ∧ 0 < maxSize)
              ∨ ∃ t, ttl = some t ∧ t ≠ 0 ∧ ¬(t.isInt = true ∧ 0 < t)))
    ∧ (∀ maxSize : ℚ, maxSize.isInt = true ∧ 0 < maxSize →
        LRUCache.construct maxSize none
          = Except.ok { entries := [], maxSize := maxSize.num.toNat, ttl := none })
    ∧ (∀ st : Cache1, st.ttl = none →
        (∀ op : CacheOp, (st.applyOp op).ttl = none)
        ∧ (∀ (now : Int) (k : String),
            (st.get now k).1 = (st.lookup k).map (fun n => n.value)
            ∧ st.has now k = ((st.lookup k).isSome, st))) := by
  refine ⟨?_, ?_, ?_⟩
  · intro m ttl
    by_cases h1 : (m = 0 ∨ ¬(m.isInt = true) ∨ m ≤ 0)
    · apply iff_of_true
      · exact ⟨_, by rw [LRUCache.construct, if_pos h1]⟩
      · left
        rintro ⟨hi, hp⟩
        rcases h1 with h | h | h
        · rw [h] at hp
          exact lt_irrefl 0 hp
        · exact h hi
        · exact absurd hp (not_lt.mpr h)
    · have hm : m.isInt = true ∧ 0 < m := by
        push_neg at h1
        exact ⟨h1.2.1, h1.2.2⟩
      cases ttl with
      | none =>
        apply iff_of_false
        · rintro ⟨e, he⟩
          rw [LRUCache.construct, if_neg h1] at he
          simp only [jsTtlGuardFails, Bool.false_eq_true, if_false] at he
          exact Except.noConfusion he
        · rintro (h | ⟨t, ht, -, -⟩)
          · exact h hm
          · exact Option.noConfusion ht
      | some t =>
        by_cases h2 : t ≠ 0 ∧ (¬(t.isInt = true) ∨ t ≤ 0)
        · apply iff_of_true
          · refine ⟨"ttl must be a positive integer (if specified)", ?_⟩
            rw [LRUCache.construct, if_neg h1,
              if_pos ((jsTtlGuardFails_some_iff t).mpr h2)]
          · right
            refine ⟨t, rfl, h2.1, ?_⟩
            rintro ⟨hi, hp⟩
            rcases h2.2 with h | h
            · exact h hi
            · exact absurd hp (not_lt.mpr h)
        · apply iff_of_false
          · rintro ⟨e, he⟩
            have hguard : jsTtlGuardFails (some t) = false := by
              by_contra hcon
              exact h2 ((jsTtlGuardFails_some_iff t).mp
                (eq_true_of_ne_false (fun hf => hcon hf)))
            rw [LRUCache.construct, if_neg h1, hguard] at he
            simp only [Bool.false_eq_true, if_false] at he
            exact Except.noConfusion he
          · rintro (h | ⟨t', ht', hne, hnp⟩)
            · exact h hm
            · cases ht'
              refine h2 ⟨hne, ?_⟩
              by_cases hi : t.isInt = true
              · right
                by_contra hgt
                exact hnp ⟨hi, not_le.mp hgt⟩
              · left
                exact hi
  · intro m hm
    have h1 : ¬(m = 0 ∨ ¬(m.isInt = true) ∨ m ≤ 0) := by
      push_neg
      exact ⟨hm.2.ne', hm.1, hm.2⟩
    rw [LRUCache.construct, if_neg h1]
    simp only [jsTtlGuardFails, Bool.false_eq_true, if_false]
  · intro st hnone
    constructor
    · intro op
      rw [cache1_applyOp_ttl]
      exact hnone
    · intro now k
      cases hf : st.entries.find? (fun e => e.key == k) with
      | none =>
        rw [cache1_get_miss st now k hf]
        constructor
        · simp [Cache1.lookup, hf]
        · simp [Cache1.has, Cache1.lookup, hf]
      | some n =>
        have hlive : jsTtlExpired st.ttl now n.lastAccessed = false := by
          rw [hnone]
          rfl
        rw [cache1_get_live st now k n hf hlive, cache1_has_live st now k n hf hlive]
        constructor
        · simp [Cache1.lookup, hf]
        · simp [Cache1.lookup, hf]

/-- Witness for C9's amended theorem: `maxSize = 0` is rejected,
`maxSize = 3` with `ttl` unset is accepted, and an entry of a no-TTL
cache is still there after an arbitrarily long pause. -/
theorem lruCache_construct_validation_witness :
    (∃ e, LRUCache.construct 0 none = Except.error e)
    ∧ LRUCache.construct 3 none = Except.ok { entries := [], maxSize := 3, ttl := none }
    ∧ ((⟨[⟨"k", "v", 0⟩], 3, none⟩ : Cache1).get 999999999 "k").1 = some "v" :=
  ⟨(lruCache_construct_validation.1 0 none).mpr (Or.inl (by decide)),
    lruCache_construct_validation.2.1 3 ⟨by decide, by decide⟩,
    ((lruCache_construct_validation.2.2 ⟨[⟨"k", "v", 0⟩], 3, none⟩ rfl).2 999999999 "k").1.trans
      (by decide)⟩

/-- Model of JavaScript `String.prototype.startsWith` (one argument). -/
def jsStartsWith (s p : String) : Bool :=
  p.data.isPrefixOf s.data

/-- Model of JavaScript `String.prototype.substring(i)`. -/
def jsSubstringFrom (s : String) (i : Nat) : String :=
  String.mk (s.data.drop i)

/-- The possible shapes of the `authorizationHeader` argument of
`extractBearerToken` (`string | string[] | null | undefined`, with
`null`/`undefined` merged as `nullish`). -/
inductive AuthHeader where
  | nullish
  | str (s : String)
  | arr (l : List String)

/-- Tail of `extractBearerToken` after the array handling: the trim
check, the `"Bearer "` scheme check and the empty-token check applied to
the selected header value. -/
def extractFromValue (headerValue : String) : Except String String :=
  if jsTrim headerValue = "" then
    Except.error "No authorization header provided"
  else if jsStartsWith headerValue "Bearer " = false then
    Except.error "Authorization header must provide \"Bearer\" token"
  else
    let token := jsSubstringFrom headerValue 7
    if token = "" then Except.error "No token provided"
    else Except.ok token

/-- Embedding of `WristbandJwtValidatorImpl.extractBearerToken`
(src/validator.ts, lines 79-115); a thrown `Error` is an `Except.error`
carrying the message.  An empty string is falsy, hence handled by the
initial `!authorizationHeader` guard; an empty array is truthy and falls
through to the length checks. -/
def extractBearerToken (h : AuthHeader) : Except String String :=
  match h with
  | .nullish => Except.error "No authorization header provided"
  | .str s =>
      if s = "" then Except.error "No authorization header provided"
      else extractFromValue s
  | .arr l =>
      if l.length = 0 then Except.error "No authorization header provided"
      else if l.length > 1 then Except.error "Multiple authorization headers not allowed"
      else extractFromValue (l.headD "")

/-- C10: `extractBearerToken` throws exactly on a nullish or empty
header, an empty array, an array of two or more headers (with the
"Multiple authorization headers not allowed" message), a value not
starting with the case-sensitive prefix `"Bearer "`, or a Bearer value
whose token part is empty; on every other input it returns the value
with the 7-character `"Bearer "` prefix stripped. -/
theorem extractBearerToken_spec :
    extractBearerToken .nullish = Except.error "No authorization header provided"
    ∧ extractBearerToken (.arr []) = Except.error "No authorization header provided"
    ∧ (∀ l : List String, 1 < l.length →
        extractBearerToken (.arr l) = Except.error "Multiple authorization headers not allowed")
    ∧ (∀ s, extractBearerToken (.arr [s]) = extractBearerToken (.str s))
    ∧ (∀ s, jsTrim s ≠ "" → jsStartsWith s "Bearer " = false →
        extractBearerToken (.str s)
          = Except.error "Authorization header must provide \"Bearer\" token")
    ∧ (∀ s, jsTrim s ≠ "" → jsStartsWith s "Bearer " = true → jsSubstringFrom s 7 = "" →
        extractBearerToken (.str s) = Except.error "No token provided")
    ∧ (∀ s t, extractBearerToken (.str s) = Except.ok t ↔
        (jsTrim s ≠ "" ∧ jsStartsWith s "Bearer " = true ∧ jsSubstringFrom s 7 ≠ ""
          ∧ t = jsSubstringFrom s 7)) := by
  have hempty : ∀ s : String, jsTrim s ≠ "" → s ≠ "" := by
    intro s htrim hcon
    exact htrim (by rw [hcon]; rfl)
  refine ⟨rfl, rfl, ?_, ?_, ?_, ?_, ?_⟩
  · intro l hl
    simp only [extractBearerToken]
    rw [if_neg (by omega), if_pos (by omega)]
  · intro s
    by_cases hs : s = ""
    · subst hs
      rfl
    · simp only [extractBearerToken, List.length_cons, List.length_nil, List.headD_cons,
        if_neg hs]
      rw [if_neg (by omega), if_neg (by omega)]
  · intro s htrim hsw
    simp only [extractBearerToken, if_neg (hempty s htrim), extractFromValue,
      if_neg htrim, hsw, if_true]
  · intro s htrim hsw htok
    simp only [extractBearerToken, if_neg (hempty s htrim), extractFromValue,
      if_neg htrim, hsw, Bool.true_eq_false, if_false, htok, if_true]
  · intro s t
    constructor
    · intro h
      simp only [extractBearerToken, extractFromValue] at h
      split_ifs at h with h1 h2 h3 h4
      have hsw : jsStartsWith s "Bearer " = true := by
        cases hb : jsStartsWith s "Bearer " with
        | false => exact absurd hb h3
        | true => rfl
      have ht : t = jsSubstringFrom s 7 := ((Except.ok.injEq _ _).mp h).symm
      exact ⟨h2, hsw, h4, ht⟩
    · rintro ⟨htrim, hsw, htok, rfl⟩
      simp only [extractBearerToken, if_neg (hempty s htrim), extractFromValue,
        if_neg htrim, hsw, Bool.true_eq_false, if_false, if_neg htok]

/-- Witness for C10: the two-header array throws the ambiguity error, a
Basic header throws the scheme error, a bare `"Bearer "` throws the empty
token error, and `"Bearer abc"` yields `"abc"`. -/
theorem extractBearerToken_spec_witness :
    extractBearerToken (.arr ["Bearer a", "Bearer b"])
        = Except.error "Multiple authorization headers not allowed"
    ∧ extractBearerToken (.str "Basic abc")
        = Except.error "Authorization header must provide \"Bearer\" token"
    ∧ extractBearerToken (.str "Bearer ") = Except.error "No token provided"
    ∧ extractBearerToken (.str "Bearer abc") = Except.ok "abc" :=
  ⟨extractBearerToken_spec.2.2.1 ["Bearer a", "Bearer b"] (by decide),
    extractBearerToken_spec.2.2.2.2.1 "Basic abc" (by decide) (by decide),
    extractBearerToken_spec.2.2.2.2.2.1 "Bearer " (by decide) (by decide) (by decide),
    (extractBearerToken_spec.2.2.2.2.2.2 "Bearer abc" "abc").mpr
      ⟨by decide, by decide, by decide, by decide⟩⟩

/-- Model of JavaScript `String.prototype.split` with a single-character
separator, on the character list. -/
def splitChar (sep : Char) : List Char → List (List Char)
  | [] => [[]]
  | c :: rest =>
    let r := splitChar sep rest
    if c = sep then [] :: r
    else
      match r with
      | [] => [[c]]
      | x :: xs => (c :: x) :: xs

/-- Model of JavaScript `String.prototype.split` with a one-character
string separator. -/
def jsSplit (s : String) (sep : Char) : List String :=
  (splitChar sep s.data).map String.mk

/-- Decoded JWT header (`JWTHeader`, src/types/index.ts): the fields
`validate` reads. -/
structure JWTHeader where
  alg : String
  kid : Option String
deriving DecidableEq, Repr

/-- Decoded JWT payload (`JWTPayload`, src/types/index.ts): the claims
`validate` reads. -/
structure JWTPayload where
  iss : Option String
  exp : Option Int
  nbf : Option Int
deriving DecidableEq, Repr

/-- Result of a validation call (`JwtValidationResult`,
src/types/index.ts). -/
structure JwtValidationResult where
  isValid : Bool
  payload : Option JWTPayload
  errorMessage : Option String
deriving DecidableEq, Repr

/-- A JavaScript throw: `some m` is an `Error` carrying message `m`,
`none` a thrown value with no message. -/
def JsThrow : Type := Option String

/-- External collaborators of `validate`, each allowed to throw:
base64url-decoding + JSON-parsing of the header and payload segments
(`JSON.parse(base64urlDecode(...))`), the JWKS client's `getSigningKey`,
the signature primitive `verifyRS256Signature`, and the `Date.now`
clock. -/
structure ValidateEnv where
  decodeHeader : String → Except (Option String) JWTHeader
  decodePayload : String → Except (Option String) JWTPayload
  getSigningKey : String → Except (Option String) String
  verifySignature : String → String → String → Except (Option String) Bool
  now : Int

/-- An invalid `ValidationResult` carrying an error message. -/
def invalidResult (msg : String) : JwtValidationResult :=
  ⟨false, none, some msg⟩

/-- The `payload.exp && Date.now() >= payload.exp * 1000` test of
`validate` (an `exp` of `0` is falsy and skips the check). -/
def jsExpClaimFails (now : Int) (exp : Option Int) : Bool :=
  match exp with
  | some e => decide (e ≠ 0) && decide (now ≥ e * 1000)
  | none => false

/-- The `payload.nbf && Date.now() < payload.nbf * 1000` test of
`validate` (an `nbf` of `0` is falsy and skips the check). -/
def jsNbfClaimFails (now : Int) (nbf : Option Int) : Bool :=
  match nbf with
  | some n => decide (n ≠ 0) && decide (now < n * 1000)
  | none => false

/-- The `!header.kid` truthiness test of `validate`. -/
def jsKidMissing (kid : Option String) : Bool :=
  match kid with
  | none => true
  | some k => k == ""

/-- Body of `WristbandJwtValidatorImpl.validate` (src/validator.ts,
lines 120-196) up to but excluding the outer `try/catch`: each early
`return` is an `Except.ok`; an exception escaping the body is an
`Except.error`. -/
def validateBody (env : ValidateEnv) (issuer : String) (algorithms : List String)
    (token : String) : Except (Option String) JwtValidationResult :=
  if token = "" then Except.ok (invalidResult "No token provided")
  else
    let parts := jsSplit token '.'
    if parts.length = 3 then
      let headerB64 := parts.getD 0 ""
      let payloadB64 := parts.getD 1 ""
      let signatureB64 := parts.getD 2 ""
      match env.decodeHeader headerB64 with
      | .error _ => Except.ok (invalidResult "Invalid JWT encoding")
      | .ok header =>
      match env.decodePayload payloadB64 with
      | .error _ => Except.ok (invalidResult "Invalid JWT encoding")
      | .ok payload =>
      if validateAlgorithm header.alg algorithms = false then
        Except.ok (invalidResult ("Algorithm " ++ header.alg
          ++ " not allowed. Expected one of: " ++ String.intercalate ", " algorithms))
      else if (payload.iss == some issuer) = false then
        Except.ok (invalidResult ("Invalid issuer. Expected " ++ issuer ++ ", got "
          ++ (match payload.iss with | some s => s | none => "undefined")))
      else if jsExpClaimFails env.now payload.exp then
        Except.ok (invalidResult "Token has expired")
      else if jsNbfClaimFails env.now payload.nbf then
        Except.ok (invalidResult "Token not yet valid")
      else if jsKidMissing header.kid then
        Except.ok (invalidResult "Token header missing kid (key ID)")
      else
        match env.getSigningKey ((header.kid).getD "") with
        | .error e => Except.ok (invalidResult ("Failed to get signing key: "
            ++ (match e with | some m => m | none => "Unknown error")))
        | .ok publicKey =>
          match env.verifySignature (headerB64 ++ "." ++ payloadB64) signatureB64 publicKey with
          | .error e => Except.error e
          | .ok false => Except.ok (invalidResult "Invalid signature")
          | .ok true => Except.ok ⟨true, some payload, none⟩
    else Except.ok (invalidResult "Invalid JWT format")

/-- Embedding of `WristbandJwtValidatorImpl.validate` including the outer
`try/catch`: any exception escaping the body becomes an invalid result
with the exception's message, or "Token validation failed" when it
carries none. -/
def validate (env : ValidateEnv) (issuer : String) (algorithms : List String)
    (token : String) : JwtValidationResult :=
  match validateBody env issuer algorithms token with
  | .ok r => r
  | .error e => invalidResult (e.getD "Token validation failed")

/-- Every successful exit of the body is either an invalid result with a
message or a valid result carrying the payload. -/
theorem validateBody_ok_shape (env : ValidateEnv) (issuer : String)
    (algorithms : List String) (token : String) (r : JwtValidationResult)
    (h : validateBody env issuer algorithms token = Except.ok r) :
    (∃ m, r = invalidResult m) ∨ ∃ p, r = ⟨true, some p, none⟩ := by
  simp only [validateBody] at h
  repeat' split at h
  all_goals cases h
  all_goals first
    | exact Or.inl ⟨_, rfl⟩
    | exact Or.inr ⟨_, rfl⟩

/-- C2: `validate` is total — every call (whatever the collaborators
throw) returns a `ValidationResult` in which the payload is present
exactly when `isValid` is true and the error message exactly when it is
false, and an exception escaping the body is converted into an invalid
result carrying the exception's message, or "Token validation failed"
when it has none. -/
theorem validate_total_shape (env : ValidateEnv) (issuer : String)
    (algorithms : List String) (token : String) :
    ((validate env issuer algorithms token).isValid = true →
        (∃ p, (validate env issuer algorithms token).payload = some p)
        ∧ (validate env issuer algorithms token).errorMessage = none)
    ∧ ((validate env issuer algorithms token).isValid = false →
        (validate env issuer algorithms token).payload = none
        ∧ ∃ m, (validate env issuer algorithms token).errorMessage = some m)
    ∧ (∀ e, validateBody env issuer algorithms token = Except.error e →
        validate env issuer algorithms token
          = invalidResult (e.getD "Token validation failed")) := by
  cases hb : validateBody env issuer algorithms token with
  | ok r =>
    have hv : validate env issuer algorithms token = r := by
      rw [validate, hb]
    rcases validateBody_ok_shape env issuer algorithms token r hb with ⟨m, rfl⟩ | ⟨p, rfl⟩
    · refine ⟨?_, ?_, ?_⟩
      · intro hcon
        rw [hv] at hcon
        exact absurd hcon (by simp [invalidResult])
      · intro _
        rw [hv]
        exact ⟨rfl, m, rfl⟩
      · intro e he
        exact Except.noConfusion he
    · refine ⟨?_, ?_, ?_⟩
      · intro _
        rw [hv]
        exact ⟨⟨p, rfl⟩, rfl⟩
      · intro hcon
        rw [hv] at hcon
        exact absurd hcon (by simp)
      · intro e he
        exact Except.noConfusion he
  | error e0 =>
    have hv : validate env issuer algorithms token
        = invalidResult (e0.getD "Token validation failed") := by
      rw [validate, hb]
    refine ⟨?_, ?_, ?_⟩
    · intro hcon
      rw [hv] at hcon
      exact absurd hcon (by simp [invalidResult])
    · intro _
      rw [hv]
      exact ⟨rfl, _, rfl⟩
    · intro e he
      cases he
      exact hv

/-- Witness for C2: a token whose signature collaborator throws a
messageless value; the outer boundary converts it into the default
invalid result. -/
theorem validate_total_shape_witness :
    validateBody
        ⟨fun _ => Except.ok ⟨"RS256", some "kid1"⟩,
          fun _ => Except.ok ⟨some "https://iss", none, none⟩,
          fun _ => Except.ok "PEM",
          fun _ _ _ => Except.error none, 0⟩
        "https://iss" ["RS256"] "a.b.c" = Except.error none
    ∧ validate
        ⟨fun _ => Except.ok ⟨"RS256", some "kid1"⟩,
          fun _ => Except.ok ⟨some "https://iss", none, none⟩,
          fun _ => Except.ok "PEM",
          fun _ _ _ => Except.error none, 0⟩
        "https://iss" ["RS256"] "a.b.c"
        = invalidResult "Token validation failed" :=
  ⟨rfl,
    (validate_total_shape
      ⟨fun _ => Except.ok ⟨"RS256", some "kid1"⟩,
        fun _ => Except.ok ⟨some "https://iss", none, none⟩,
        fun _ => Except.ok "PEM",
        fun _ _ _ => Except.error none, 0⟩
      "https://iss" ["RS256"] "a.b.c").2.2 none rfl⟩

deriving instance DecidableEq for Except

/-- Value of a standard-base64 alphabet character. -/
def b64Val (c : Char) : Option Nat :=
  if 'A' ≤ c ∧ c ≤ 'Z' then some (c.toNat - 65)
  else if 'a' ≤ c ∧ c ≤ 'z' then some (c.toNat - 97 + 26)
  else if '0' ≤ c ∧ c ≤ '9' then some (c.toNat - 48 + 52)
  else if c = '+' then some 62
  else if c = '/' then some 63
  else none

/-- Model of `atob` on a padded base64 string (groups of four characters,
`=` only as final padding), producing the decoded bytes; an invalid
character is the `DOMException` throw. -/
def atobGroups : List Char → Except String (List Nat)
  | [] => Except.ok []
  | c1 :: c2 :: c3 :: c4 :: rest =>
    match b64Val c1, b64Val c2 with
    | some v1, some v2 =>
      if c3 = '=' then
        if c4 = '=' ∧ rest = [] then Except.ok [v1 * 4 + v2 / 16]
        else Except.error "InvalidCharacterError"
      else
        match b64Val c3 with
        | some v3 =>
          if c4 = '=' then
            if rest = [] then Except.ok [v1 * 4 + v2 / 16, (v2 % 16) * 16 + v3 / 4]
            else Except.error "InvalidCharacterError"
          else
            match b64Val c4 with
            | some v4 =>
              match atobGroups rest with
              | Except.ok bs =>
                  Except.ok ([v1 * 4 + v2 / 16, (v2 % 16) * 16 + v3 / 4,
                    (v3 % 4) * 64 + v4] ++ bs)
              | Except.error e => Except.error e
            | none => Except.error "InvalidCharacterError"
        | none => Except.error "InvalidCharacterError"
    | _, _ => Except.error "InvalidCharacterError"
  | _ => Except.error "InvalidCharacterError"

/-- Embedding of `base64urlToArrayBuffer` (src/utils/crypto.ts): replace
the URL-safe characters, append `=` padding to a multiple of four, and
decode with `atob`. -/
def base64urlToArrayBuffer (base64url : String) : Except String (List Nat) :=
  let replaced := base64url.data.map (fun c => if c = '-' then '+'
    else if c = '_' then '/' else c)
  let padding := List.replicate ((4 - base64url.length % 4) % 4) '='
  atobGroups (replaced ++ padding)

/-- Character of a 6-bit value in the standard base64 alphabet. -/
def b64Char (n : Nat) : Char :=
  if n < 26 then Char.ofNat (65 + n)
  else if n < 52 then Char.ofNat (97 + (n - 26))
  else if n < 62 then Char.ofNat (48 + (n - 52))
  else if n = 62 then '+'
  else '/'

/-- Model of `btoa` on a byte list: encode three bytes per group of four
characters, padding the final group with `=`. -/
def btoaGroups : List Nat → List Char
  | [] => []
  | [b1] => [b64Char (b1 / 4), b64Char ((b1 % 4) * 16), '=', '=']
  | [b1, b2] => [b64Char (b1 / 4), b64Char ((b1 % 4) * 16 + b2 / 16),
      b64Char ((b2 % 16) * 4), '=']
  | b1 :: b2 :: b3 :: rest =>
      b64Char (b1 / 4) :: b64Char ((b1 % 4) * 16 + b2 / 16)
        :: b64Char ((b2 % 16) * 4 + b3 / 64) :: b64Char (b3 % 64) :: btoaGroups rest

/-- Embedding of `arrayBufferToBase64` (src/utils/crypto.ts). -/
def arrayBufferToBase64 (bs : List Nat) : String :=
  String.mk (btoaGroups bs)

/-- Big-endian base-256 digits of a natural number (the
`while (temp > 0) { bytes.unshift(temp & 0xff); temp >>= 8 }` loop of
`encodeLength`). -/
def toBytesBE (n : Nat) : List Nat :=
  if h : n = 0 then [] else toBytesBE (n / 256) ++ [n % 256]
termination_by n
decreasing_by exact Nat.div_lt_self (Nat.pos_of_ne_zero h) (by norm_num)

/-- Embedding of `JWKSClient.encodeLength` (src/jwks-client.ts, lines
372-385): short form below 128, long form (`0x80 | count` then the
big-endian bytes) from 128 up. -/
def encodeLength (length : Nat) : List Nat :=
  if length < 0x80 then [length]
  else Nat.lor 0x80 (toBytesBE length).length :: toBytesBE length

/-- Embedding of `JWKSClient.encodeInteger` (src/jwks-client.ts, lines
278-284): DER INTEGER tag, length, and the bytes prefixed with a zero
byte when the most significant bit of the first byte is set
(`bytes[0] >= 0x80`; an empty buffer compares `undefined >= 0x80`,
which is false). -/
def encodeInteger (bytes : List Nat) : List Nat :=
  let needsPadding := bytes.headD 0 ≥ 0x80
  let paddedBytes := if needsPadding then 0 :: bytes else bytes
  0x02 :: (encodeLength paddedBytes.length ++ paddedBytes)

/-- Embedding of `JWKSClient.createRSAPublicKeyDER` (src/jwks-client.ts,
lines 317-346): the RSAPublicKey SEQUENCE of the two INTEGERs, wrapped in
a BIT STRING next to the RSA algorithm identifier inside the outer
SubjectPublicKeyInfo SEQUENCE. -/
def createRSAPublicKeyDER (n e : List Nat) : List Nat :=
  let nInteger := encodeInteger n
  let eInteger := encodeInteger e
  let seq := nInteger ++ eInteger
  let rsaSequence := 0x30 :: (encodeLength seq.length ++ seq)
  let rsaOID : List Nat :=
    [0x30, 0x0d, 0x06, 0x09, 0x2a, 0x86, 0x48, 0x86, 0xf7, 0x0d, 0x01, 0x01, 0x01, 0x05, 0x00]
  let bitString := 0x03 :: (encodeLength (rsaSequence.length + 1) ++ (0 :: rsaSequence))
  let finalSequence := rsaOID ++ bitString
  0x30 :: (encodeLength finalSequence.length ++ finalSequence)

/-- A JWK as consumed by the client (`JWKSKey`, src/types/index.ts):
`kty`, `kid`, and the optional base64url modulus and exponent. -/
structure JWKSKey where
  kty : String
  kid : String
  n : Option String
  e : Option String
deriving DecidableEq, Repr

/-- A fetched key set (`JWKSResponse`). -/
structure JWKSResponse where
  keys : List JWKSKey
deriving DecidableEq, Repr

/-- Modelled from the spec: `pemHeader` and `pemFooter` live in
src/constants.ts, which is not among the provided sources; the spec fixes
them as the fixed begin/end markers of the portable textual key format. -/
def pemHeader : String := "-----BEGIN PUBLIC KEY-----"

/-- Modelled from the spec: see `pemHeader`. -/
def pemFooter : String := "-----END PUBLIC KEY-----"

/-- JavaScript falsiness of an optional string (`undefined` or `""`). -/
def jsStrFalsy (s : Option String) : Bool :=
  match s with
  | none => true
  | some v => v == ""

/-- Chunks of at most 64 characters (the `/.{1,64}/g` match of
`jwkToPem`); the empty string yields no chunks (the `null` match). -/
def chunk64 (l : List Char) : List (List Char) :=
  if h : l = [] then [] else l.take 64 :: chunk64 (l.drop 64)
termination_by l.length
decreasing_by
  simp only [List.length_drop]
  exact Nat.sub_lt (List.length_pos.mpr h) (by norm_num)

/-- Embedding of `JWKSClient.jwkToPem` (src/jwks-client.ts, lines
245-268): reject missing/empty `n`/`e`, reject a modulus of fewer than
2048 bits (`byteLength * 8`), DER-encode, base64-wrap with 64-character
lines and the PEM markers.  A decoding `DOMException` propagates as an
error. -/
def jwkToPem (jwk : JWKSKey) : Except String String :=
  if jsStrFalsy jwk.n || jsStrFalsy jwk.e then
    Except.error "Invalid JWK: missing n or e parameters"
  else
    match base64urlToArrayBuffer (jwk.n.getD "") with
    | Except.error err => Except.error err
    | Except.ok nBuffer =>
      let keyBitLength := nBuffer.length * 8
      if keyBitLength < 2048 then
        Except.error ("RSA key too weak: " ++ toString keyBitLength
          ++ " bits. 2048 bits minimum required.")
      else
        match base64urlToArrayBuffer (jwk.e.getD "") with
        | Except.error err => Except.error err
        | Except.ok eBuffer =>
          let base64Der := arrayBufferToBase64 (createRSAPublicKeyDER nBuffer eBuffer)
          if base64Der = "" then Except.error "Failed to format PEM body"
          else
            let pemBody := String.intercalate "\n" ((chunk64 base64Der.data).map String.mk)
            Except.ok (pemHeader ++ "\n" ++ pemBody ++ "\n" ++ pemFooter)

/-- Miss path of `JWKSClient.getSigningKey` (src/jwks-client.ts, lines
101-119): fetch the key set (the retry loop's overall outcome is the
`fetchOutcome` input), locate the key, check its type, convert it, and
cache the converted key under the requested id. -/
def JWKSClient.getSigningKeyMiss (st : Cache1) (now : Int)
    (fetchOutcome : Except String JWKSResponse) (kid : String) :
    Except String String × Cache1 :=
  match fetchOutcome with
  | Except.error m => (Except.error m, st)
  | Except.ok jwks =>
    match jwks.keys.find? (fun k => k.kid == kid) with
    | none => (Except.error ("Unable to find a signing key that matches '" ++ kid ++ "'"), st)
    | some jwk =>
      if (jwk.kty == "RSA") = false then
        (Except.error "Only RSA keys are supported", st)
      else
        match jwkToPem jwk with
        | Except.error m => (Except.error m, st)
        | Except.ok publicKey => (Except.ok publicKey, st.set now kid publicKey)

/-- Embedding of `JWKSClient.getSigningKey` (src/jwks-client.ts, lines
94-120): serve a truthy cached key immediately, otherwise run the miss
path on the state left by the cache lookup. -/
def JWKSClient.getSigningKey (cache : Cache1) (now : Int)
    (fetchOutcome : Except String JWKSResponse) (kid : String) :
    Except String String × Cache1 :=
  let g := cache.get now kid
  match g.1 with
  | some cachedKey =>
      if cachedKey = "" then JWKSClient.getSigningKeyMiss g.2 now fetchOutcome kid
      else (Except.ok cachedKey, g.2)
  | none => JWKSClient.getSigningKeyMiss g.2 now fetchOutcome kid

/-- `btoa` of a nonempty byte list is a nonempty string. -/
theorem arrayBufferToBase64_ne_empty (bs : List Nat) (h : bs ≠ []) :
    arrayBufferToBase64 bs ≠ "" := by
  intro hcon
  have hdata := congrArg String.data hcon
  cases bs with
  | nil => exact h rfl
  | cons b1 rest =>
    cases rest with
    | nil => simp [arrayBufferToBase64, btoaGroups] at hdata
    | cons b2 rest2 =>
      cases rest2 with
      | nil => simp [arrayBufferToBase64, btoaGroups] at hdata
      | cons b3 rest3 => simp [arrayBufferToBase64, btoaGroups] at hdata

/-- C7: for a JWK with modulus and exponent present (and decodable), key
conversion rejects it with the weak-key error exactly when the modulus
buffer represents fewer than 2048 bits (`byteLength * 8 < 2048`), and
produces a PEM key otherwise. -/
theorem jwkToPem_weak_key_boundary
    (jwk : JWKSKey) (ns es : String) (nb eb : List Nat)
    (hn : jwk.n = some ns) (hns : ns ≠ "")
    (he : jwk.e = some es) (hes : es ≠ "")
    (hnb : base64urlToArrayBuffer ns = Except.ok nb)
    (heb : base64urlToArrayBuffer es = Except.ok eb) :
    (nb.length * 8 < 2048 →
        jwkToPem jwk = Except.error ("RSA key too weak: " ++ toString (nb.length * 8)
          ++ " bits. 2048 bits minimum required."))
    ∧ (2048 ≤ nb.length * 8 → ∃ pem, jwkToPem jwk = Except.ok pem) := by
  have hfn : jsStrFalsy jwk.n = false := by
    rw [hn]
    simpa [jsStrFalsy] using hns
  have hfe : jsStrFalsy jwk.e = false := by
    rw [he]
    simpa [jsStrFalsy] using hes
  have hgn : jwk.n.getD "" = ns := by rw [hn]; rfl
  have hge : jwk.e.getD "" = es := by rw [he]; rfl
  constructor
  · intro hlt
    simp only [jwkToPem, hfn, hfe, Bool.or_self, Bool.false_eq_true, if_false, hgn, hge,
      hnb, heb, if_pos hlt]
  · intro hge2048
    simp only [jwkToPem, hfn, hfe, Bool.or_self, Bool.false_eq_true, if_false, hgn, hge,
      hnb, heb, if_neg (by omega : ¬ nb.length * 8 < 2048)]
    have hder : createRSAPublicKeyDER nb eb ≠ [] := by
      simp [createRSAPublicKeyDER]
    rw [if_neg (arrayBufferToBase64_ne_empty _ hder)]
    exact ⟨_, rfl⟩

set_option maxRecDepth 40000

/-- Witness for C7: a 128-byte (1024-bit) modulus is rejected with the
weak-key error; a 256-byte (2048-bit) modulus is accepted. -/
theorem jwkToPem_weak_key_boundary_witness :
    jwkToPem ⟨"RSA", "kid1", some (String.mk (List.replicate 171 'A')), some "AQAB"⟩
        = Except.error "RSA key too weak: 1024 bits. 2048 bits minimum required."
    ∧ ∃ pem, jwkToPem ⟨"RSA", "kid1", some (String.mk (List.replicate 342 'A')), some "AQAB"⟩
        = Except.ok pem :=
  ⟨((jwkToPem_weak_key_boundary
      ⟨"RSA", "kid1", some (String.mk (List.replicate 171 'A')), some "AQAB"⟩
      (String.mk (List.replicate 171 'A')) "AQAB" (List.replicate 128 0) [1, 0, 1]
      rfl (by decide) rfl (by decide) (by decide) (by decide)).1 (by decide)).trans
        (by decide),
    (jwkToPem_weak_key_boundary
      ⟨"RSA", "kid1", some (String.mk (List.replicate 342 'A')), some "AQAB"⟩
      (String.mk (List.replicate 342 'A')) "AQAB" (List.replicate 256 0) [1, 0, 1]
      rfl (by decide) rfl (by decide) (by decide) (by decide)).2 (by decide)⟩

/-- Unsigned big-endian value of a byte sequence (how a standard DER
parser interprets a non-negative INTEGER's content bytes). -/
def bytesToNat (l : List Nat) : Nat :=
  l.foldl (fun acc b => acc * 256 + b) 0

/-- Standard DER length-field parser: short form below `0x80`, long form
reading `b - 0x80` further big-endian bytes. -/
def parseLen : List Nat → Option (Nat × List Nat)
  | [] => none
  | b :: r =>
    if b < 0x80 then some (b, r)
    else
      let k := b - 0x80
      if k ≤ r.length then some (bytesToNat (r.take k), r.drop k) else none

/-- Standard DER INTEGER parser: tag `0x02`, a length field, then that
many content bytes; returns the content and the remaining input. -/
def parseDERInteger (l : List Nat) : Option (List Nat × List Nat) :=
  match l with
  | 2 :: r =>
    match parseLen r with
    | some (len, r2) => if len ≤ r2.length then some (r2.take len, r2.drop len) else none
    | none => none
  | _ => none

/-- Standard parser for the RSAPublicKey structure: a SEQUENCE (tag
`0x30`) containing exactly two INTEGERs; returns their content bytes. -/
def parseRSAPublicKey (l : List Nat) : Option (List Nat × List Nat) :=
  match l with
  | 48 :: r =>
    match parseLen r with
    | some (len, r2) =>
      if r2.drop len = [] then
        match parseDERInteger (r2.take len) with
        | some (nC, rest1) =>
          match parseDERInteger rest1 with
          | some (eC, rest2) => if rest2 = [] then some (nC, eC) else none
          | none => none
        | none => none
      else none
    | none => none
  | _ => none

/-- The `rsaSequence` local of `createRSAPublicKeyDER`: the two encoded
INTEGERs wrapped in a DER SEQUENCE. -/
def rsaSequenceOf (n e : List Nat) : List Nat :=
  let seq := encodeInteger n ++ encodeInteger e
  0x30 :: (encodeLength seq.length ++ seq)

/-- Appending one low byte multiplies the big-endian value by 256. -/
theorem bytesToNat_append_byte (l : List Nat) (b : Nat) :
    bytesToNat (l ++ [b]) = bytesToNat l * 256 + b := by
  simp [bytesToNat, List.foldl_append]

/-- The base-256 digit expansion evaluates back to the number. -/
theorem bytesToNat_toBytesBE (n : Nat) : bytesToNat (toBytesBE n) = n := by
  induction n using Nat.strong_induction_on with
  | _ n ih =>
    by_cases h : n = 0
    · subst h
      rw [toBytesBE]
      rfl
    · rw [toBytesBE, dif_neg h, bytesToNat_append_byte,
        ih (n / 256) (Nat.div_lt_self (Nat.pos_of_ne_zero h) (by norm_num))]
      have := Nat.div_add_mod n 256
      omega

/-- A number below `256 ^ k` has at most `k` base-256 digits. -/
theorem toBytesBE_length_le (k : Nat) : ∀ n : Nat, n < 256 ^ k → (toBytesBE n).length ≤ k := by
  induction k with
  | zero =>
    intro n h
    have : n = 0 := by simpa using h
    subst this
    rw [toBytesBE]
    simp
  | succ k ih =>
    intro n h
    by_cases h0 : n = 0
    · subst h0
      rw [toBytesBE]
      simp
    · rw [toBytesBE, dif_neg h0]
      have hdiv : n / 256 < 256 ^ k := by
        rw [Nat.div_lt_iff_lt_mul (by norm_num : (0:ℕ) < 256)]
        calc n < 256 ^ (k + 1) := h
          _ = 256 ^ k * 256 := by rw [pow_succ]
      have := ih (n / 256) hdiv
      simp only [List.length_append, List.length_cons, List.length_nil]
      omega

/-- Bitwise-or of `0x80` with a count below `0x80` is plain addition. -/
theorem lor_128_eq_add : ∀ L : Nat, L < 128 → Nat.lor 128 L = 128 + L := by decide

/-- Round trip of the DER length field: parsing an encoded length (with
any trailing input) recovers the length and the trailing input. -/
theorem parseLen_encodeLength (n : Nat) (t : List Nat) (h : n < 256 ^ 127) :
    parseLen (encodeLength n ++ t) = some (n, t) := by
  by_cases hs : n < 0x80
  · simp [encodeLength, hs, parseLen]
  · have hlen : (toBytesBE n).length ≤ 127 := toBytesBE_length_le 127 n h
    simp only [encodeLength, hs, if_false, List.cons_append]
    rw [lor_128_eq_add _ (by omega)]
    simp only [parseLen]
    rw [if_neg (by omega : ¬ 128 + (toBytesBE n).length < 0x80)]
    have hk : 128 + (toBytesBE n).length - 0x80 = (toBytesBE n).length := by omega
    rw [hk, if_pos (by simp), List.take_left, List.drop_left, bytesToNat_toBytesBE]

/-- The content bytes produced by `encodeInteger` (with the sign-padding
applied exactly when the leading byte has its top bit set). -/
def derPaddedBytes (bs : List Nat) : List Nat :=
  if 0x80 ≤ bs.headD 0 then 0 :: bs else bs

/-- The padded content is at most one byte longer. -/
theorem derPaddedBytes_length (bs : List Nat) :
    (derPaddedBytes bs).length = bs.length ∨ (derPaddedBytes bs).length = bs.length + 1 := by
  unfold derPaddedBytes
  split
  · right; rfl
  · left; rfl

/-- `encodeInteger` written through `derPaddedBytes` (the two `if`s have
literally the same condition). -/
theorem encodeInteger_eq (bs : List Nat) :
    encodeInteger bs
      = 0x02 :: (encodeLength (derPaddedBytes bs).length ++ derPaddedBytes bs) := rfl

/-- Round trip of a DER INTEGER: parsing an encoded integer (with any
trailing input) recovers the (possibly sign-padded) content bytes and the
trailing input. -/
theorem parseDERInteger_encodeInteger (bs t : List Nat)
    (h : bs.length + 1 < 256 ^ 127) :
    parseDERInteger (encodeInteger bs ++ t) = some (derPaddedBytes bs, t) := by
  have hplen : (derPaddedBytes bs).length < 256 ^ 127 := by
    rcases derPaddedBytes_length bs with hl | hl <;> omega
  rw [encodeInteger_eq]
  simp only [List.cons_append, parseDERInteger, List.append_assoc]
  rw [parseLen_encodeLength _ _ hplen]
  dsimp only
  rw [if_pos (by simp), List.take_left, List.drop_left]

/-- Sign padding does not change the represented unsigned value. -/
theorem bytesToNat_derPaddedBytes (bs : List Nat) :
    bytesToNat (derPaddedBytes bs) = bytesToNat bs := by
  unfold derPaddedBytes
  split
  · simp [bytesToNat, List.foldl_cons]
  · rfl

/-- The length field is at most 128 bytes long for any realistic length. -/
theorem encodeLength_length_le (n : Nat) (h : n < 256 ^ 127) :
    (encodeLength n).length ≤ 128 := by
  unfold encodeLength
  split
  · simp
  · have := toBytesBE_length_le 127 n h
    simp only [List.length_cons]
    omega

/-- Size bound of an encoded INTEGER. -/
theorem encodeInteger_length_le (bs : List Nat) (h : bs.length + 1 < 256 ^ 127) :
    (encodeInteger bs).length ≤ bs.length + 130 := by
  have hplen : (derPaddedBytes bs).length < 256 ^ 127 := by
    rcases derPaddedBytes_length bs with hl | hl <;> omega
  have h1 := encodeLength_length_le _ hplen
  rw [encodeInteger_eq]
  simp only [List.length_cons, List.length_append]
  rcases derPaddedBytes_length bs with hl | hl <;> omega

/-- C8: the DER INTEGER encoding prefixes exactly one zero byte iff the
first byte is `≥ 0x80` (and no prefix otherwise); the DER length field is
the single-byte short form below 128 and the long form from 128 up (200
encodes as `{0x81, 0xC8}`); consequently a standard DER parser applied to
the produced RSAPublicKey structure recovers content bytes whose unsigned
values are exactly the original modulus and exponent. -/
theorem der_encoding_spec :
    (∀ n : Nat, n < 128 → encodeLength n = [n])
    ∧ encodeLength 200 = [0x81, 0xC8]
    ∧ (∀ (n : Nat) (t : List Nat), 128 ≤ n → n < 256 ^ 127 →
        encodeLength n = Nat.lor 0x80 (toBytesBE n).length :: toBytesBE n
        ∧ parseLen (encodeLength n ++ t) = some (n, t))
    ∧ (∀ (bs t : List Nat), bs.length + 1 < 256 ^ 127 →
        parseDERInteger (encodeInteger bs ++ t) = some (derPaddedBytes bs, t)
        ∧ (0x80 ≤ bs.headD 0 → derPaddedBytes bs = 0 :: bs)
        ∧ (bs.headD 0 < 0x80 → derPaddedBytes bs = bs)
        ∧ bytesToNat (derPaddedBytes bs) = bytesToNat bs)
    ∧ (∀ nb eb : List Nat, nb.length + eb.length + 300 < 256 ^ 127 →
        parseRSAPublicKey (rsaSequenceOf nb eb)
          = some (derPaddedBytes nb, derPaddedBytes eb)
        ∧ bytesToNat (derPaddedBytes nb) = bytesToNat nb
        ∧ bytesToNat (derPaddedBytes eb) = bytesToNat eb) := by
  refine ⟨?_, ?_, ?_, ?_, ?_⟩
  · intro n h
    simp [encodeLength, h]
  · have h0 : toBytesBE 0 = [] := by rw [toBytesBE]; simp
    have h200 : toBytesBE 200 = [200] := by
      rw [toBytesBE, dif_neg (by norm_num : ¬ (200 : ℕ) = 0)]
      norm_num [h0]
    rw [encodeLength, if_neg (by norm_num), h200]
    rfl
  · intro n t hge hlt
    refine ⟨?_, parseLen_encodeLength n t hlt⟩
    rw [encodeLength, if_neg (by omega)]
  · intro bs t h
    refine ⟨parseDERInteger_encodeInteger bs t h, ?_, ?_, bytesToNat_derPaddedBytes bs⟩
    · intro hp
      rw [derPaddedBytes, if_pos hp]
    · intro hp
      rw [derPaddedBytes, if_neg (by omega)]
  · intro nb eb hbound
    have hP : (0:ℕ) < 256 ^ 127 := pow_pos (by norm_num) _
    have hnb1 : nb.length + 1 < 256 ^ 127 := by omega
    have heb1 : eb.length + 1 < 256 ^ 127 := by omega
    have hseqlen : (encodeInteger nb ++ encodeInteger eb).length < 256 ^ 127 := by
      have h1 := encodeInteger_length_le nb hnb1
      have h2 := encodeInteger_length_le eb heb1
      simp only [List.length_append]
      omega
    have he2 : parseDERInteger (encodeInteger eb) = some (derPaddedBytes eb, []) := by
      have h := parseDERInteger_encodeInteger eb [] heb1
      simpa using h
    refine ⟨?_, bytesToNat_derPaddedBytes nb, bytesToNat_derPaddedBytes eb⟩
    simp only [rsaSequenceOf, parseRSAPublicKey]
    rw [parseLen_encodeLength _ _ hseqlen]
    dsimp only
    rw [if_pos (List.drop_length _), List.take_length,
      parseDERInteger_encodeInteger nb (encodeInteger eb) hnb1]
    dsimp only
    rw [he2]
    simp

/-- Witness for C8: concrete sign-padded and unpadded integers, the long
form for 200, and a full structure round trip. -/
theorem der_encoding_spec_witness :
    encodeLength 42 = [42]
    ∧ parseLen (encodeLength 200 ++ [9]) = some (200, [9])
    ∧ parseDERInteger (encodeInteger [0x80, 1] ++ [7]) = some ([0, 0x80, 1], [7])
    ∧ parseDERInteger (encodeInteger [0x7f, 1] ++ [7]) = some ([0x7f, 1], [7])
    ∧ parseRSAPublicKey (rsaSequenceOf [200, 7] [1, 0, 1]) = some ([0, 200, 7], [1, 0, 1])
    ∧ bytesToNat [0, 200, 7] = bytesToNat [200, 7] :=
  ⟨der_encoding_spec.1 42 (by decide),
    (der_encoding_spec.2.2.1 200 [9] (by decide) (by decide)).2,
    ((der_encoding_spec.2.2.2.1 [0x80, 1] [7] (by decide)).1).trans (by decide),
    ((der_encoding_spec.2.2.2.1 [0x7f, 1] [7] (by decide)).1).trans (by decide),
    ((der_encoding_spec.2.2.2.2 [200, 7] [1, 0, 1] (by decide)).1).trans (by decide),
    (der_encoding_spec.2.2.2.2 [200, 7] [1, 0, 1] (by decide)).2.1.trans (by decide)⟩

/-- With pairwise-distinct keys, erasing a key's node removes every trace
of it. -/
theorem find?_eraseP_key_none (l : List CacheNode) (k : String)
    (hnd : (l.map (fun e => e.key)).Nodup) :
    (l.eraseP (fun e => e.key == k)).find? (fun e => e.key == k) = none := by
  induction l with
  | nil => rfl
  | cons a l ih =>
    simp only [List.map_cons, List.nodup_cons] at hnd
    by_cases ha : (a.key == k) = true
    · rw [@List.eraseP_cons_of_pos CacheNode a l (fun e => e.key == k) ha,
        List.find?_eq_none]
      intro x hx hcon
      apply hnd.1
      have hxk : x.key = k := by simpa using hcon
      have hak : a.key = k := by simpa using ha
      rw [hak, ← hxk]
      exact List.mem_map_of_mem _ hx
    · rw [@List.eraseP_cons_of_neg CacheNode a l (fun e => e.key == k) ha,
        @List.find?_cons_of_neg CacheNode (fun e => e.key == k) a
          (List.eraseP (fun e => e.key == k) l) ha]
      exact ih hnd.2

/-- The miss path leaves the cache untouched whenever it fails. -/
theorem getSigningKeyMiss_error_state (st : Cache1) (now : Int)
    (fo : Except String JWKSResponse) (kid err : String)
    (h : (JWKSClient.getSigningKeyMiss st now fo kid).1 = Except.error err) :
    (JWKSClient.getSigningKeyMiss st now fo kid).2 = st := by
  cases fo with
  | error m => rfl
  | ok jwks =>
    cases hfind : jwks.keys.find? (fun kk => kk.kid == kid) with
    | none => simp [JWKSClient.getSigningKeyMiss, hfind]
    | some jwk =>
      by_cases hk : (jwk.kty == "RSA") = false
      · simp [JWKSClient.getSigningKeyMiss, hfind, hk]
      · cases hp : jwkToPem jwk with
        | error m => simp [JWKSClient.getSigningKeyMiss, hfind, hk, hp]
        | ok pem =>
          exfalso
          simp [JWKSClient.getSigningKeyMiss, hfind, hk, hp] at h

/-- The miss path on a failing fetch reports exactly the fetch failure. -/
theorem getSigningKeyMiss_fetch_error (st : Cache1) (now : Int) (kid m : String) :
    JWKSClient.getSigningKeyMiss st now (Except.error m) kid = (Except.error m, st) := rfl

/-- Reduction of `getSigningKey` on a cache miss. -/
theorem getSigningKey_of_get_none (cache : Cache1) (now : Int)
    (fo : Except String JWKSResponse) (kid : String) (c2 : Cache1)
    (hg : cache.get now kid = (none, c2)) :
    JWKSClient.getSigningKey cache now fo kid
      = JWKSClient.getSigningKeyMiss c2 now fo kid := by
  simp only [JWKSClient.getSigningKey, hg]

/-- Reduction of `getSigningKey` on a falsy (empty-string) cache hit. -/
theorem getSigningKey_of_get_some_empty (cache : Cache1) (now : Int)
    (fo : Except String JWKSResponse) (kid : String) (c2 : Cache1)
    (hg : cache.get now kid = (some "", c2)) :
    JWKSClient.getSigningKey cache now fo kid
      = JWKSClient.getSigningKeyMiss c2 now fo kid := by
  simp only [JWKSClient.getSigningKey, hg]
  simp

/-- Reduction of `getSigningKey` on a truthy cache hit. -/
theorem getSigningKey_of_get_some_ne (cache : Cache1) (now : Int)
    (fo : Except String JWKSResponse) (kid : String) (c2 : Cache1) (v : String)
    (hv : v ≠ "")
    (hg : cache.get now kid = (some v, c2)) :
    JWKSClient.getSigningKey cache now fo kid = (Except.ok v, c2) := by
  simp only [JWKSClient.getSigningKey, hg, if_neg hv]

/-- When every cached node under `kid` is falsy (or none exists), a call
with a failing fetch reaches the fetch and reports its failure — i.e. the
full fetch is performed again. -/
theorem getSigningKey_fetch_error_of_kid_falsy (st : Cache1) (now2 : Int) (m kid : String)
    (h : ∀ nd, st.entries.find? (fun e => e.key == kid) = some nd → nd.value = "") :
    (JWKSClient.getSigningKey st now2 (Except.error m) kid).1 = Except.error m := by
  cases hf2 : st.entries.find? (fun e => e.key == kid) with
  | none =>
    rw [getSigningKey_of_get_none st now2 (Except.error m) kid st
      (cache1_get_miss st now2 kid hf2), getSigningKeyMiss_fetch_error]
  | some nd =>
    have hv := h nd hf2
    by_cases hE : jsTtlExpired st.ttl now2 nd.lastAccessed = true
    · rw [getSigningKey_of_get_none st now2 (Except.error m) kid _
        (cache1_get_expired st now2 kid nd hf2 hE), getSigningKeyMiss_fetch_error]
    · have hg2 := cache1_get_live st now2 kid nd hf2 (by simpa using hE)
      rw [hv] at hg2
      rw [getSigningKey_of_get_some_empty st now2 (Except.error m) kid _ hg2,
        getSigningKeyMiss_fetch_error]

/-- C6: when `getSigningKey` fails at any step, nothing is written to the
cache: the resulting cache is exactly the state left by the initial
lookup (so if the identifier was not cached, the cache is unchanged); any
surviving entry for the identifier keeps the value it already had; and a
subsequent call for the same identifier performs the full fetch again.
Only a fully validated, successfully encoded key is ever written. -/
theorem getSigningKey_failure_never_caches
    (cache : Cache1) (now : Int) (fo : Except String JWKSResponse) (kid err : String)
    (hnd : (cache.entries.map (fun e => e.key)).Nodup)
    (hfail : (JWKSClient.getSigningKey cache now fo kid).1 = Except.error err) :
    (JWKSClient.getSigningKey cache now fo kid).2 = (cache.get now kid).2
    ∧ (cache.lookup kid = none → (JWKSClient.getSigningKey cache now fo kid).2 = cache)
    ∧ (∀ v, ((JWKSClient.getSigningKey cache now fo kid).2.lookup kid).map (fun n => n.value)
          = some v →
        (cache.lookup kid).map (fun n => n.value) = some v)
    ∧ (∀ (m : String) (now2 : Int),
        (JWKSClient.getSigningKey (JWKSClient.getSigningKey cache now fo kid).2 now2
            (Except.error m) kid).1 = Except.error m) := by
  cases hf : cache.entries.find? (fun e => e.key == kid) with
  | none =>
    have hg : cache.get now kid = (none, cache) := cache1_get_miss cache now kid hf
    have hred : JWKSClient.getSigningKey cache now fo kid
        = JWKSClient.getSigningKeyMiss cache now fo kid :=
      getSigningKey_of_get_none cache now fo kid cache hg
    have hstate : (JWKSClient.getSigningKeyMiss cache now fo kid).2 = cache :=
      getSigningKeyMiss_error_state cache now fo kid err (by rw [← hred]; exact hfail)
    refine ⟨?_, ?_, ?_, ?_⟩
    · rw [hred, hstate, hg]
    · intro _
      rw [hred, hstate]
    · intro v hv
      rw [hred, hstate] at hv
      exact hv
    · intro m now2
      rw [hred, hstate]
      exact getSigningKey_fetch_error_of_kid_falsy cache now2 m kid
        (fun nd hnd2 => absurd (hf ▸ hnd2) (by simp))
  | some node =>
    have hkey : (node.key == kid) = true :=
      @List.find?_some CacheNode (fun e => e.key == kid) node cache.entries hf
    by_cases hexp : jsTtlExpired cache.ttl now node.lastAccessed = true
    · have hg : cache.get now kid
          = (none, { cache with entries := cache.entries.eraseP (fun e => e.key == kid) }) :=
        cache1_get_expired cache now kid node hf hexp
      have hred := getSigningKey_of_get_none cache now fo kid _ hg
      have hstate := getSigningKeyMiss_error_state _ now fo kid err (by rw [← hred]; exact hfail)
      have hlook : (cache.entries.eraseP (fun e => e.key == kid)).find?
          (fun e => e.key == kid) = none := find?_eraseP_key_none cache.entries kid hnd
      refine ⟨?_, ?_, ?_, ?_⟩
      · rw [hred, hstate, hg]
      · intro hcon
        rw [Cache1.lookup, hf] at hcon
        cases hcon
      · intro v hv
        rw [hred, hstate] at hv
        rw [show ({ cache with entries :=
            cache.entries.eraseP (fun e => e.key == kid) } : Cache1).lookup kid = none
          from hlook] at hv
        cases hv
      · intro m now2
        rw [hred, hstate]
        exact getSigningKey_fetch_error_of_kid_falsy _ now2 m kid
          (fun nd hnd2 => absurd (hlook ▸ hnd2) (by simp))
    · have hexp' : jsTtlExpired cache.ttl now node.lastAccessed = false := by
        simpa using hexp
      have hg := cache1_get_live cache now kid node hf hexp'
      by_cases hv0 : node.value = ""
      · nth_rewrite 1 [hv0] at hg
        have hred := getSigningKey_of_get_some_empty cache now fo kid _ hg
        have hstate := getSigningKeyMiss_error_state _ now fo kid err
          (by rw [← hred]; exact hfail)
        have hfind2 : ({ cache with entries := ({ node with lastAccessed := now } ::
            cache.entries.eraseP (fun e => e.key == kid)) } : Cache1).entries.find?
              (fun e => e.key == kid) = some { node with lastAccessed := now } :=
          List.find?_cons_of_pos _ (by simpa using hkey)
        refine ⟨?_, ?_, ?_, ?_⟩
        · rw [hred, hstate, hg]
        · intro hcon
          rw [Cache1.lookup, hf] at hcon
          cases hcon
        · intro v hv
          rw [hred, hstate] at hv
          rw [show ({ cache with entries := ({ node with lastAccessed := now } ::
              cache.entries.eraseP (fun e => e.key == kid)) } : Cache1).lookup kid
            = some { node with lastAccessed := now } from hfind2] at hv
          rw [Cache1.lookup, hf]
          simpa [hv0] using hv
        · intro m now2
          rw [hred, hstate]
          refine getSigningKey_fetch_error_of_kid_falsy _ now2 m kid ?_
          intro nd hnd2
          rw [hfind2] at hnd2
          cases hnd2
          exact hv0
      · have hred := getSigningKey_of_get_some_ne cache now fo kid _ node.value hv0 hg
        rw [hred] at hfail
        exact absurd hfail (by simp)

/-- Witness for C6: a failing fetch against an empty cache leaves it
empty, and a repeat call fetches (and fails) again. -/
theorem getSigningKey_failure_never_caches_witness :
    (JWKSClient.getSigningKey ⟨[], 20, none⟩ 0
        (Except.error "Failed to fetch JWKS after 3 attempts: network down") "kid1").2
      = (⟨[], 20, none⟩ : Cache1)
    ∧ (JWKSClient.getSigningKey
        (JWKSClient.getSigningKey ⟨[], 20, none⟩ 0
          (Except.error "Failed to fetch JWKS after 3 attempts: network down") "kid1").2 1
        (Except.error "Failed to fetch JWKS after 3 attempts: still down") "kid1").1
      = Except.error "Failed to fetch JWKS after 3 attempts: still down" :=
  ⟨(getSigningKey_failure_never_caches ⟨[], 20, none⟩ 0
      (Except.error "Failed to fetch JWKS after 3 attempts: network down") "kid1"
      "Failed to fetch JWKS after 3 attempts: network down"
      (by decide) (by decide)).2.1 (by decide),
    (getSigningKey_failure_never_caches ⟨[], 20, none⟩ 0
      (Except.error "Failed to fetch JWKS after 3 attempts: network down") "kid1"
      "Failed to fetch JWKS after 3 attempts: network down"
      (by decide) (by decide)).2.2.2
      "Failed to fetch JWKS after 3 attempts: still down" 1⟩
